import Mathlib

/-!
Shallow embedding of `src/classes/block.py` (the `Block` entity of the
classy_blocks repository) and verification of the frozen claims about it.

Modelling conventions:
* Python floats are idealized as exact rationals (`ℚ`).
* Python exceptions are modelled by explicit outcome types (`Option`,
  dedicated `inductive` outcome values); a raised exception is never a value.
* 3-D points are an abstract type `P`; the Euclidean-norm utility
  `util.functions.norm` is an external collaborator (spec §6) and is
  modelled by an explicit `dist : P → P → ℚ` parameter.
* `Edge.get_length()` is external (spec §6); an edge carries its length.
* The 1-D Newton root-finder `scipy.optimize.newton` is external (spec §6);
  a successful root-find is modelled by an oracle value `g` at which the
  objective function evaluates to exactly `0`, with the objective's final
  (state-mutating) evaluation taken at `g`.
* The near-zero cutoff `constants.tol` is a positive parameter `tol`.
-/

namespace ClassyBlocks

/-- Embeds `primitives.Vertex` (external, spec §6): a point plus an optional
globally assigned mesh index, `None` before the orchestrator's indexing pass. -/
structure Vertex (P : Type) where
  point : P
  mesh_index : Option ℤ
deriving DecidableEq

/-- Embeds the external `Edge` collaborator (spec §6): two local vertex
indices (0-7) and its measured arc length (`get_length()`). -/
structure Edge where
  block_index_1 : Fin 8
  block_index_2 : Fin 8
  length : ℚ
deriving DecidableEq

/-- Embeds the `Block` class state from `src/classes/block.py`.
`deferred_counts` holds the argument tuples of queued `count_to_size`
requests, `deferred_gradings` those of queued `grade_to_size` requests
(axis, cell_size, inverse) - the explicit-queue view of `DeferredFunction`. -/
structure Block (P : Type) where
  vertices : Fin 8 → Vertex P
  edges : List Edge
  n_cells : Fin 3 → Option ℤ
  grading : Fin 3 → Option ℚ
  cell_zone : String
  description : String
  patches : List (String × List String)
  mesh_index : Option ℤ
  deferred_counts : List (Fin 3 × ℚ)
  deferred_gradings : List (Fin 3 × ℚ × Bool)
deriving DecidableEq

/-- Embeds `Block.face_map`: the fixed table from the 6 face names to the 4
local vertex indices of that face, in winding order. -/
def face_map : List (String × (Fin 8 × Fin 8 × Fin 8 × Fin 8)) :=
  [("bottom", (0, 1, 2, 3)),
   ("top", (4, 5, 6, 7)),
   ("left", (4, 0, 3, 7)),
   ("right", (5, 1, 2, 6)),
   ("front", (4, 5, 1, 0)),
   ("back", (7, 6, 2, 3))]

/-- Embeds `Block.axis_pair_indexes`: for each axis, the 4 pairs of local
vertex indices running along that axis. -/
def axis_pair_indexes : Fin 3 → List (Fin 8 × Fin 8)
  | 0 => [(0, 1), (3, 2), (4, 5), (7, 6)]
  | 1 => [(0, 3), (1, 2), (5, 6), (4, 7)]
  | 2 => [(0, 4), (1, 5), (2, 6), (3, 7)]

/-- Python `str()` applied to an optional integer: `None` prints as "None". -/
def pyStrOptInt : Option ℤ → String
  | none => "None"
  | some k => toString k

/-- Modelled from the spec: Python float formatting for the grading column.
Exact for integer-valued floats (Python prints `2.0` for the float 2), which
are the only float values the spec's serialization examples exercise. -/
def pyFloatStr (q : ℚ) : String :=
  if q.den = 1 then toString q.num ++ ".0" else toString q

/-- One entry of the serialized grading column: an unset grading defaults to
the integer 1 (printed "1"), a set grading is a float. -/
def gradingStr : Option ℚ → String
  | none => "1"
  | some q => pyFloatStr q

/-- Python `int()` applied to a (rational-idealized) float: truncation toward
zero. -/
def pyInt (q : ℚ) : ℤ :=
  if 0 ≤ q then ⌊q⌋ else -⌊-q⌋

/-- Python dict lookup `self.patches[name]` (as an optional value): the
patches dict is embedded as an association list in insertion order. -/
def lookupPatch (ps : List (String × List String)) (name : String) : Option (List String) :=
  (ps.find? (fun e => e.1 == name)).map (fun e => e.2)

/-- The dict mutation performed by `Block.set_patch`: create the entry with
an empty side list on first use, then extend it with the new sides
(`self.patches[patch_name] += sides`); a fresh key is inserted at the end,
as a Python dict does. -/
def setPatchEntry : List (String × List String) → String → List String →
    List (String × List String)
  | [], name, sides => [(name, sides)]
  | e :: rest, name, sides =>
    if e.1 == name then (e.1, e.2 ++ sides) :: rest
    else e :: setPatchEntry rest name sides

/-- Embeds `Block.set_patch` for a list argument (the normalized form). -/
def Block.set_patch {P : Type} (b : Block P) (sides : List String)
    (patch_name : String) : Block P :=
  { b with patches := setPatchEntry b.patches patch_name sides }

/-- Embeds `Block.set_patch` for a single string argument: the
`type(sides) == str` branch wraps it into a one-element list. -/
def Block.set_patch_str {P : Type} (b : Block P) (side : String)
    (patch_name : String) : Block P :=
  b.set_patch [side] patch_name

/-- The string built by `Block.format_face` from the 4 face vertices:
`"({} {} {} {})".format(...)` on their mesh indices. -/
def faceString {P : Type} (b : Block P) (q : Fin 8 × Fin 8 × Fin 8 × Fin 8) :
    String :=
  "(" ++ pyStrOptInt (b.vertices q.1).mesh_index ++ " " ++
    pyStrOptInt (b.vertices q.2.1).mesh_index ++ " " ++
    pyStrOptInt (b.vertices q.2.2.1).mesh_index ++ " " ++
    pyStrOptInt (b.vertices q.2.2.2).mesh_index ++ ")"

/-- Embeds `Block.format_face`: looks the side name up in `face_map` and
formats the face; an unknown side name raises `KeyError` in Python,
modelled as `none`. -/
def Block.format_face {P : Type} (b : Block P) (side : String) : Option String :=
  ((face_map.find? (fun e => e.1 == side)).map (fun e => faceString b e.2))

/-- Embeds `Block.get_faces`: an unregistered patch yields the empty list;
otherwise each registered side is formatted in order (a `KeyError` raised by
`format_face` propagates, modelled by the `Option` bind of `mapM`). -/
def Block.get_faces {P : Type} (b : Block P) (patch : String) :
    Option (List String) :=
  match lookupPatch b.patches patch with
  | none => some []
  | some sides => sides.mapM (fun side => b.format_face side)

/-- The `find_edge` helper inside `Block.get_size`: first edge whose
unordered local index pair matches. -/
def Block.find_edge {P : Type} (b : Block P) (i j : Fin 8) : Option Edge :=
  b.edges.find? (fun e =>
    ({e.block_index_1, e.block_index_2} : Finset (Fin 8)) = ({i, j} : Finset (Fin 8)))

/-- The `block_size` helper inside `Block.get_size`: edge arc length when an
edge is defined for the pair, straight-line distance otherwise.  `dist`
models the external norm utility (spec §6). -/
def Block.pair_size {P : Type} (dist : P → P → ℚ) (b : Block P) (i j : Fin 8) : ℚ :=
  match b.find_edge i j with
  | some e => e.length
  | none => dist (b.vertices i).point (b.vertices j).point

/-- Embeds `Block.get_size`: the mean of the four per-pair measurements
along the axis (`sum_edges / 4`). -/
def Block.get_size {P : Type} (dist : P → P → ℚ) (b : Block P) (axis : Fin 3) : ℚ :=
  ((axis_pair_indexes axis).map (fun pr => b.pair_size dist pr.1 pr.2)).sum / 4

/-- Embeds `Block.get_axis_vertex_pairs`: walk the 4 local pairs of the
axis, skip pairs whose two vertices carry the same global mesh index, and
append the unordered global index pair (a Python 2-element `set`) of the
others. -/
def Block.get_axis_vertex_pairs {P : Type} (b : Block P) (axis : Fin 3) :
    List (Finset (Option ℤ)) :=
  (axis_pair_indexes axis).foldl
    (fun pairs pr =>
      if (b.vertices pr.1).mesh_index = (b.vertices pr.2).mesh_index then pairs
      else pairs ++
        [({(b.vertices pr.1).mesh_index, (b.vertices pr.2).mesh_index} :
          Finset (Option ℤ))])
    []

/-- Embeds `Block.get_axis_from_pair`: the first axis (0, 1, 2) whose vertex
pairs contain `set(pair)`, or `None` when no axis matches. -/
def Block.get_axis_from_pair {P : Type} (b : Block P) (pair : Option ℤ × Option ℤ) :
    Option (Fin 3) :=
  if ({pair.1, pair.2} : Finset (Option ℤ)) ∈ b.get_axis_vertex_pairs 0 then some 0
  else if ({pair.1, pair.2} : Finset (Option ℤ)) ∈ b.get_axis_vertex_pairs 1 then some 1
  else if ({pair.1, pair.2} : Finset (Option ℤ)) ∈ b.get_axis_vertex_pairs 2 then some 2
  else none

/-- Embeds `Block._count_to_size`, the body of a deferred `count_to_size`
request: `n_cells[axis] = int(get_size(axis) / cell_size)`. -/
def Block.countToSizeRun {P : Type} (dist : P → P → ℚ) (b : Block P) (axis : Fin 3)
    (cell_size : ℚ) : Block P :=
  { b with n_cells :=
      Function.update b.n_cells axis (some (pyInt (b.get_size dist axis / cell_size))) }

/-- Embeds `Block.count_to_size`: only enqueues the deferred request. -/
def Block.count_to_size {P : Type} (b : Block P) (axis : Fin 3) (cell_size : ℚ) :
    Block P :=
  { b with deferred_counts := b.deferred_counts ++ [(axis, cell_size)] }

/-- The orchestrator's drain of `deferred_counts` (spec §4.3/§6): every
queued request is invoked once, in FIFO order. -/
def Block.drainCounts {P : Type} (dist : P → P → ℚ) (b : Block P) : Block P :=
  b.deferred_counts.foldl (fun bl e => bl.countToSizeRun dist e.1 e.2)
    { b with deferred_counts := [] }

/-- The cascade loop inside `fcell_size` (the objective function local to
`Block._grade_to_size`).  The Python list `cell_sizes` is kept in reverse
(head = most recently appended sample, i.e. `cell_sizes[-1]`); `l` is
`l_block`.  Each of the `n` iterations adds the current last sample to
`l_block`, appends `last * grading`, and bails out (`return`, i.e. Python
`None`) as soon as the appended sample drops below `tol`. -/
def cascadeLoop (tol g : ℚ) : ℕ → List ℚ → ℚ → Option (List ℚ × ℚ)
  | 0, rcs, l => some (rcs, l)
  | k + 1, rcs, l =>
    if rcs.headI * g < tol then none
    else cascadeLoop tol g k (rcs.headI * g :: rcs) (l + rcs.headI)

/-- Outcome of one evaluation of `fcell_size`:
`aborted` is the bare `return` on a near-zero sample (Python `None`, which
makes the caller's arithmetic raise), `divByZero` is the
`ZeroDivisionError` of the rescaling when `l_block == 0` (which happens
exactly when `n_cells` is 0), and `value` carries the rescaled
`cell_sizes` list plus the returned residual `cell_size - cell_sizes[-1]`. -/
inductive FcellOutcome where
  | aborted : FcellOutcome
  | divByZero : FcellOutcome
  | value : List ℚ → ℚ → FcellOutcome
deriving DecidableEq

/-- Embeds `fcell_size` from `Block._grade_to_size`: build the cascade from
`[1]`, rescale every sample by `block_size / l_block`, and return
`cell_size - cell_sizes[-1]` together with the rescaled list. -/
def fcell_size (tol : ℚ) (n : ℕ) (block_size cell_size g : ℚ) : FcellOutcome :=
  match cascadeLoop tol g n [1] 0 with
  | none => .aborted
  | some (rcs, l) =>
    if l = 0 then .divByZero
    else
      let cs := (rcs.map (fun c => c * block_size / l)).reverse
      .value cs (cell_size - cs.getLastD 0)

/-- Outcome of invoking a deferred `Block._grade_to_size` computation:
`precondError` is the `AssertionError` raised when `abs(cell_size)`
exceeds the block size, `evalError` covers the exceptions raised while
evaluating the objective (`TypeError` from an aborted cascade, `range(None)`
on an unresolved cell count, `ZeroDivisionError`), `noConverge` is a
root-finder failure, and `success G` means `grading[axis]` was set to `G`. -/
inductive GradeOutcome where
  | precondError : GradeOutcome
  | evalError : GradeOutcome
  | noConverge : GradeOutcome
  | success : ℚ → GradeOutcome
deriving DecidableEq

/-- Embeds `Block._grade_to_size`, the body of a deferred `grade_to_size`
request.  The external Newton root-finder (spec §6) is idealized by the
oracle `g`: a drain converges exactly when the objective at `g` evaluates
to residual `0`, and the `nonlocal cell_sizes` list that the grading is read
from is the one produced by that final evaluation.  The final
`cell_sizes[0] / cell_sizes[-1]` (or its reciprocal for `inverse`) raises
`ZeroDivisionError` on a zero denominator, modelled as `evalError`. -/
def gradeToSizeRun {P : Type} (dist : P → P → ℚ) (tol : ℚ) (b : Block P)
    (axis : Fin 3) (cell_size : ℚ) (inverse : Bool) (g : ℚ) : GradeOutcome :=
  let block_size := b.get_size dist axis
  if |cell_size| > block_size then .precondError
  else
    match b.n_cells axis with
    | none => .evalError
    | some n =>
      match fcell_size tol n.toNat block_size cell_size g with
      | .aborted => .evalError
      | .divByZero => .evalError
      | .value cs residual =>
        if residual = 0 then
          if inverse then
            if cs.headI = 0 then .evalError
            else .success (cs.getLastD 0 / cs.headI)
          else
            if cs.getLastD 0 = 0 then .evalError
            else .success (cs.headI / cs.getLastD 0)
        else .noConverge

/-- Invoking one deferred `grade_to_size` computation on a block: `none`
when the invocation raises or the root-finder diverges, otherwise the block
with `grading[axis]` resolved. -/
def Block.gradeToSizeDrain {P : Type} (dist : P → P → ℚ) (tol : ℚ) (b : Block P)
    (axis : Fin 3) (cell_size : ℚ) (inverse : Bool) (g : ℚ) : Option (Block P) :=
  match gradeToSizeRun dist tol b axis cell_size inverse g with
  | .success G => some { b with grading := Function.update b.grading axis (some G) }
  | _ => none

/-- Embeds `Block.grade_to_size`: only enqueues the deferred request. -/
def Block.grade_to_size {P : Type} (b : Block P) (axis : Fin 3) (cell_size : ℚ)
    (inverse : Bool) : Block P :=
  { b with deferred_gradings := b.deferred_gradings ++ [(axis, cell_size, inverse)] }

/-- FIFO invocation of a list of deferred grading requests, each paired with
the root the external Newton solver found for it; the first failure aborts
the drain (spec §4.3: a failure surfaces to the orchestrator). -/
def applyGradings {P : Type} (dist : P → P → ℚ) (tol : ℚ) :
    Block P → List ((Fin 3 × ℚ × Bool) × ℚ) → Option (Block P)
  | b, [] => some b
  | b, (e, g) :: rest =>
    match b.gradeToSizeDrain dist tol e.1 e.2.1 e.2.2 g with
    | none => none
    | some b2 => applyGradings dist tol b2 rest

/-- The orchestrator's drain of `deferred_gradings` (spec §4.3/§6), with one
Newton-oracle root supplied per queued request. -/
def Block.drainGradings {P : Type} (dist : P → P → ℚ) (tol : ℚ) (b : Block P)
    (roots : List ℚ) : Option (Block P) :=
  applyGradings dist tol { b with deferred_gradings := [] }
    (b.deferred_gradings.zip roots)

/-- Embeds `Block.__repr__`: the blockMeshDict record, built by string
concatenation exactly as the source does (including the stray double spaces
produced by `"hex " + " ( "` and `") " + " simpleGrading"`). -/
def Block.repr {P : Type} (b : Block P) : String :=
  "hex " ++
  (" ( " ++
    String.intercalate " "
      ((List.finRange 8).map (fun i => pyStrOptInt (b.vertices i).mesh_index)) ++
    " ) ") ++
  b.cell_zone ++
  (" (" ++ pyStrOptInt (b.n_cells 0) ++ " " ++ pyStrOptInt (b.n_cells 1) ++ " " ++
    pyStrOptInt (b.n_cells 2) ++ ") ") ++
  (" simpleGrading (" ++ gradingStr (b.grading 0) ++ " " ++
    gradingStr (b.grading 1) ++ " " ++ gradingStr (b.grading 2) ++ ")") ++
  (" // " ++ pyStrOptInt b.mesh_index ++ " " ++ b.description)

/-- Modelled from the spec: the §4.7 output grammar
`hex ( v0 .. v7 ) cellZone (nx ny nz) simpleGrading (gx gy gz) // meshIndex
description`, rendered with a single space between adjacent tokens, for
comparison with what `Block.__repr__` actually produces. -/
def specRecord {P : Type} (b : Block P) : String :=
  "hex ( " ++
  String.intercalate " "
    ((List.finRange 8).map (fun i => pyStrOptInt (b.vertices i).mesh_index)) ++
  " ) " ++ b.cell_zone ++
  " (" ++ pyStrOptInt (b.n_cells 0) ++ " " ++ pyStrOptInt (b.n_cells 1) ++ " " ++
  pyStrOptInt (b.n_cells 2) ++ ") simpleGrading (" ++ gradingStr (b.grading 0) ++
  " " ++ gradingStr (b.grading 1) ++ " " ++ gradingStr (b.grading 2) ++ ") // " ++
  pyStrOptInt b.mesh_index ++ " " ++ b.description

/-- Modelled from the spec (§4.5 step 2, §8): the last (rescaled) sample of
the geometric cascade with ratio `r` for `n` cells - `n + 1` samples
starting at 1, the first `n` of which are summed as the simulated block
length, everything rescaled so that this length equals `block_size`. -/
def cascadeLastSize (block_size r : ℚ) (n : ℕ) : ℚ :=
  r ^ n * block_size / (Finset.range n).sum (fun i => r ^ i)

section CascadeLemmas

lemma cascadeLoop_some (tol g : ℚ) :
    ∀ (k : ℕ) (a : ℚ) (rest : List ℚ) (l : ℚ) (out : List ℚ × ℚ),
      cascadeLoop tol g k (a :: rest) l = some out →
      (∃ pre : List ℚ, out.1 = pre ++ a :: rest) ∧
      out.1.headI = a * g ^ k ∧
      out.2 = l + (Finset.range k).sum (fun i => a * g ^ i) ∧
      ∀ j : ℕ, 1 ≤ j → j ≤ k → tol ≤ a * g ^ j := by
  intro k
  induction k with
  | zero =>
    intro a rest l out h
    simp only [cascadeLoop, Option.some.injEq] at h
    subst h
    refine ⟨⟨[], rfl⟩, by simp, by simp, ?_⟩
    intro j h1 h2
    omega
  | succ k ih =>
    intro a rest l out h
    simp only [cascadeLoop, List.headI] at h
    split at h
    · exact absurd h (by simp)
    · rename_i hcond
      obtain ⟨⟨pre, hpre⟩, hhead, hsum, htl⟩ := ih (a * g) (a :: rest) (l + a) out h
      refine ⟨⟨pre ++ [a * g], by rw [hpre, List.append_assoc]; rfl⟩, ?_, ?_, ?_⟩
      · rw [hhead]; ring
      · rw [hsum, Finset.sum_range_succ']
        have he : (Finset.range k).sum (fun i => a * g ^ (i + 1)) =
            (Finset.range k).sum (fun i => a * g * g ^ i) :=
          Finset.sum_congr rfl (fun i _ => by ring)
        rw [he, pow_zero, mul_one]
        ring
      · intro j h1 h2
        rcases Nat.exists_eq_add_of_le h1 with ⟨j2, hj⟩
        subst hj
        rcases Nat.eq_zero_or_pos j2 with h0 | hpos
        · subst h0
          simpa using le_of_not_lt hcond
        · have := htl j2 hpos (by omega)
          calc tol ≤ a * g * g ^ j2 := this
            _ = a * g ^ (1 + j2) := by ring

lemma cascadeLoop_run (tol g : ℚ) (n : ℕ) (out : List ℚ × ℚ)
    (h : cascadeLoop tol g n [1] 0 = some out) :
    (∃ pre : List ℚ, out.1 = pre ++ [1]) ∧
    out.1.headI = g ^ n ∧
    out.2 = (Finset.range n).sum (fun i => g ^ i) ∧
    ∀ j : ℕ, 1 ≤ j → j ≤ n → tol ≤ g ^ j := by
  obtain ⟨hpre, hhead, hsum, htl⟩ := cascadeLoop_some tol g n 1 [] 0 out h
  refine ⟨hpre, by simpa using hhead, by simpa using hsum, fun j h1 h2 => ?_⟩
  simpa using htl j h1 h2

lemma fcell_value_spec {tol : ℚ} {n : ℕ} {bs s g : ℚ} {cs : List ℚ} {r : ℚ}
    (h : fcell_size tol n bs s g = .value cs r) :
    (Finset.range n).sum (fun i => g ^ i) ≠ 0 ∧
    cs.headI = bs / (Finset.range n).sum (fun i => g ^ i) ∧
    cs.getLastD 0 = g ^ n * bs / (Finset.range n).sum (fun i => g ^ i) ∧
    r = s - g ^ n * bs / (Finset.range n).sum (fun i => g ^ i) ∧
    ∀ j : ℕ, 1 ≤ j → j ≤ n → tol ≤ g ^ j := by
  cases hc : cascadeLoop tol g n [1] 0 with
  | none =>
    simp only [fcell_size, hc] at h
    exact absurd h (by simp)
  | some p =>
    obtain ⟨⟨pre, hpre⟩, hhead, hsum, htl⟩ := cascadeLoop_run tol g n p hc
    rcases p with ⟨rcs, l⟩
    simp only at hpre hhead hsum
    simp only [fcell_size, hc] at h
    split at h
    · exact absurd h (by simp)
    · rename_i hl0
      rw [hsum] at hl0
      injection h with hcs hr
      subst hcs
      subst hr
      have hlast : ((rcs.map (fun c => c * bs / l)).reverse).getLastD 0 =
          g ^ n * bs / (Finset.range n).sum (fun i => g ^ i) := by
        cases rcs with
        | nil => exact absurd hpre (by simp)
        | cons h0 t0 =>
          have hh0 : h0 = g ^ n := by simpa using hhead
          rw [List.map_cons, List.reverse_cons, List.getLastD_concat]
          rw [hh0, hsum]
      have hheadI : ((rcs.map (fun c => c * bs / l)).reverse).headI =
          bs / (Finset.range n).sum (fun i => g ^ i) := by
        rw [hpre, List.map_append, List.reverse_append]
        simp only [List.map_cons, List.map_nil, List.reverse_cons, List.reverse_nil,
          List.nil_append, List.cons_append, List.headI]
        rw [hsum, one_mul]
      exact ⟨hl0, hheadI, hlast, by rw [hlast], htl⟩

lemma gradeRun_success {P : Type} {dist : P → P → ℚ} {tol : ℚ} {b : Block P}
    {axis : Fin 3} {s : ℚ} {inverse : Bool} {g G : ℚ} (htol : 0 < tol)
    (h : gradeToSizeRun dist tol b axis s inverse g = .success G) :
    ∃ n : ℤ, b.n_cells axis = some n ∧ 1 ≤ n.toNat ∧ tol ≤ g ∧ 0 < g ∧
      |s| ≤ b.get_size dist axis ∧ b.get_size dist axis ≠ 0 ∧
      0 < (Finset.range n.toNat).sum (fun i => g ^ i) ∧
      s = g ^ n.toNat * b.get_size dist axis /
            (Finset.range n.toNat).sum (fun i => g ^ i) ∧
      G = (if inverse then g ^ n.toNat else (g ^ n.toNat)⁻¹) := by
  simp only [gradeToSizeRun] at h
  split at h
  · exact absurd h (by simp)
  · rename_i hpre
    have hsle : |s| ≤ b.get_size dist axis := le_of_not_lt hpre
    cases hn : b.n_cells axis with
    | none => rw [hn] at h; exact absurd h (by simp)
    | some n =>
      rw [hn] at h
      dsimp only at h
      refine ⟨n, rfl, ?_⟩
      cases hf : fcell_size tol n.toNat (b.get_size dist axis) s g with
      | aborted => rw [hf] at h; exact absurd h (by simp)
      | divByZero => rw [hf] at h; exact absurd h (by simp)
      | value cs r =>
        rw [hf] at h
        dsimp only at h
        obtain ⟨hLne, hheadI, hlast, hr, htl⟩ := fcell_value_spec hf
        split at h
        · rename_i hr0
          have hnpos : 1 ≤ n.toNat := by
            by_contra hn0
            have hz : n.toNat = 0 := by omega
            rw [hz] at hLne
            simp at hLne
          have hg : tol ≤ g := by simpa using htl 1 le_rfl hnpos
          have hgpos : 0 < g := lt_of_lt_of_le htol hg
          have hLpos : 0 < (Finset.range n.toNat).sum (fun i => g ^ i) :=
            Finset.sum_pos (fun i _ => pow_pos hgpos i)
              (Finset.nonempty_range_iff.mpr (by omega))
          have hs : s = g ^ n.toNat * b.get_size dist axis /
              (Finset.range n.toNat).sum (fun i => g ^ i) := by
            rw [hr] at hr0
            linarith [hr0]
          cases inverse with
          | false =>
            rw [if_neg (by simp)] at h
            split at h
            · exact absurd h (by simp)
            · rename_i hdne
              rw [hlast] at hdne
              have hbs : b.get_size dist axis ≠ 0 := by
                intro h0
                rw [h0] at hdne
                simp at hdne
              simp only [GradeOutcome.success.injEq] at h
              refine ⟨hnpos, hg, hgpos, hsle, hbs, hLpos, hs, ?_⟩
              rw [if_neg (by simp), ← h, hheadI, hlast]
              have hx : b.get_size dist axis /
                  (Finset.range n.toNat).sum (fun i => g ^ i) ≠ 0 :=
                div_ne_zero hbs hLne
              rw [mul_div_assoc, mul_comm, div_mul_eq_div_div, div_self hx, one_div]
          | true =>
            rw [if_pos rfl] at h
            split at h
            · exact absurd h (by simp)
            · rename_i hdne
              rw [hheadI] at hdne
              have hbs : b.get_size dist axis ≠ 0 := by
                intro h0
                rw [h0] at hdne
                simp at hdne
              simp only [GradeOutcome.success.injEq] at h
              refine ⟨hnpos, hg, hgpos, hsle, hbs, hLpos, hs, ?_⟩
              rw [if_pos rfl, ← h, hheadI, hlast]
              have hx : b.get_size dist axis /
                  (Finset.range n.toNat).sum (fun i => g ^ i) ≠ 0 :=
                div_ne_zero hbs hLne
              rw [mul_div_assoc]
              exact mul_div_cancel_right₀ _ hx
        · exact absurd h (by simp)

lemma gradeRun_success_pos {P : Type} {dist : P → P → ℚ} {tol : ℚ} {b : Block P}
    {axis : Fin 3} {s : ℚ} {inverse : Bool} {g G : ℚ} (htol : 0 < tol)
    (hbs : 0 ≤ b.get_size dist axis)
    (h : gradeToSizeRun dist tol b axis s inverse g = .success G) : 0 < s := by
  obtain ⟨n, _, _, _, hg, _, hne, hL, hs, _⟩ := gradeRun_success htol h
  have hbspos : 0 < b.get_size dist axis := lt_of_le_of_ne hbs (Ne.symm hne)
  rw [hs]
  exact div_pos (mul_pos (pow_pos hg _) hbspos) hL

end CascadeLemmas

section GradingClaims

/-- C1: for a block and axis with a resolved positive cell count `n`, if the
enqueued `grade_to_size(axis, s, inverse=False)` request drains successfully
(with Newton root `g`), the resolved `grading[axis]` satisfies the
reconstruction property: the cascade ratio `r` recovered from the grading
(`r ^ n * grading = 1`, `r > 0`) rebuilds, after rescaling the cascade total
to `get_size(axis)`, exactly `s` as the last cell size (exact rational
arithmetic standing in for "within numerical tolerance"). -/
theorem grade_to_size_reconstruction {P : Type} (dist : P → P → ℚ) (tol : ℚ)
    (b b2 : Block P) (axis : Fin 3) (s g : ℚ) (n : ℤ)
    (htol : 0 < tol) (hn : b.n_cells axis = some n) (_hpos : 0 < n)
    (hq : b.deferred_gradings = [])
    (h : (b.grade_to_size axis s false).drainGradings dist tol [g] = some b2) :
    ∃ G : ℚ, b2.grading axis = some G ∧ ∃ r : ℚ, 0 < r ∧
      r ^ n.toNat * G = 1 ∧
      cascadeLastSize (b.get_size dist axis) r n.toNat = s := by
  simp only [Block.grade_to_size, Block.drainGradings, hq, List.nil_append,
    List.zip, List.zipWith, applyGradings] at h
  set b0 : Block P := { b with deferred_gradings := [] } with hb0
  cases hd : b0.gradeToSizeDrain dist tol axis s false g with
  | none => rw [hd] at h; exact absurd h (by simp)
  | some b3 =>
    rw [hd] at h
    dsimp only [applyGradings] at h
    have hb23 : b3 = b2 := by injection h
    rw [Block.gradeToSizeDrain] at hd
    cases hr : gradeToSizeRun dist tol b0 axis s false g with
    | precondError => rw [hr] at hd; exact absurd hd (by simp)
    | evalError => rw [hr] at hd; exact absurd hd (by simp)
    | noConverge => rw [hr] at hd; exact absurd hd (by simp)
    | success G =>
      rw [hr] at hd
      dsimp only at hd
      have hb3 : b3 = { b0 with grading := Function.update b0.grading axis (some G) } := by
        injection hd with hd2
        exact hd2.symm
      obtain ⟨n2, hn2, hnpos, hg, hgpos, _, _, _, hs, hG⟩ := gradeRun_success htol hr
      have hn2b : b.n_cells axis = some n2 := hn2
      rw [hn] at hn2b
      injection hn2b with hn2eq
      subst hn2eq
      refine ⟨G, ?_, g, hgpos, ?_, ?_⟩
      · rw [← hb23, hb3]
        simp [Function.update_same]
      · rw [hG, if_neg (by simp)]
        exact mul_inv_cancel₀ (pow_ne_zero _ (ne_of_gt hgpos))
      · rw [cascadeLastSize]
        exact hs.symm

/-- C2: invoking the deferred `grade_to_size` computation raises the
`AssertionError` precondition violation exactly when the requested boundary
cell size exceeds `get_size(axis)` in absolute value; the outcome does not
depend on the root-finder (it is the same for every oracle root `g`), i.e.
the check happens before any root-finding, and an oversized request is never
silently clamped. -/
theorem grade_to_size_precond_iff {P : Type} (dist : P → P → ℚ) (tol : ℚ)
    (b : Block P) (axis : Fin 3) (s : ℚ) (inverse : Bool) (g : ℚ) :
    gradeToSizeRun dist tol b axis s inverse g = .precondError ↔
      |s| > b.get_size dist axis := by
  constructor
  · intro h
    by_contra hc
    simp only [gradeToSizeRun] at h
    rw [if_neg hc] at h
    cases hn : b.n_cells axis with
    | none => rw [hn] at h; exact absurd h (by simp)
    | some n =>
      rw [hn] at h
      dsimp only at h
      cases hf : fcell_size tol n.toNat (b.get_size dist axis) s g with
      | aborted => rw [hf] at h; exact absurd h (by simp)
      | divByZero => rw [hf] at h; exact absurd h (by simp)
      | value cs r =>
        rw [hf] at h
        dsimp only at h
        split at h
        · split at h
          · split at h
            · exact absurd h (by simp)
            · exact absurd h (by simp)
          · split at h
            · exact absurd h (by simp)
            · exact absurd h (by simp)
        · exact absurd h (by simp)
  · intro h
    simp only [gradeToSizeRun]
    rw [if_pos h]

/-- C3 (amended): with `n_cells[axis] = 0` the deferred `grade_to_size`
computation never succeeds (the rescaling divides by `l_block = 0`), and
with `n_cells[axis] = 1` a successful drain resolves
`grading[axis] = get_size(axis) / s` (resp. `s / get_size(axis)` for
`inverse`), which equals 1 only when `s` equals the block size - not
unconditionally 1 as claimed. -/
theorem grade_to_size_small_counts_amended {P : Type} (dist : P → P → ℚ)
    (tol : ℚ) (b : Block P) (axis : Fin 3) (s : ℚ) (inverse : Bool) (g : ℚ)
    (htol : 0 < tol) :
    (b.n_cells axis = some 0 →
      ∀ G : ℚ, gradeToSizeRun dist tol b axis s inverse g ≠ .success G) ∧
    (b.n_cells axis = some 1 →
      ∀ G : ℚ, gradeToSizeRun dist tol b axis s inverse g = .success G →
        (if inverse then G * b.get_size dist axis = s
         else G * s = b.get_size dist axis)) := by
  constructor
  · intro h0 G hsuc
    obtain ⟨n, hn, hnpos, _⟩ := gradeRun_success htol hsuc
    rw [h0] at hn
    injection hn with hneq
    rw [← hneq] at hnpos
    simp at hnpos
  · intro h1 G hsuc
    obtain ⟨n, hn, hnpos, hg, hgpos, _, hbs, hL, hs, hG⟩ := gradeRun_success htol hsuc
    rw [h1] at hn
    injection hn with hneq
    subst hneq
    have hgne : g ≠ 0 := ne_of_gt hgpos
    simp only [Int.toNat_one, pow_one, Finset.range_one, Finset.sum_singleton,
      pow_zero, div_one] at hs hG
    cases inverse with
    | false =>
      rw [if_neg (by simp)]
      rw [if_neg (by simp)] at hG
      rw [hG, hs, inv_mul_eq_div, mul_comm, mul_div_assoc, div_self hgne, mul_one]
    | true =>
      rw [if_pos rfl]
      rw [if_pos rfl] at hG
      rw [hG, hs]

/-- C4 (amended): the sign of the requested boundary cell size is
semantically significant, not ignored: a deferred `grade_to_size` can only
succeed when the requested size is strictly positive (the rescaled last
cascade sample always is), so for a request `s` that drains successfully the
opposite request `-s` never does - instead of producing the same grading. -/
theorem grade_to_size_sign_amended {P : Type} (dist : P → P → ℚ) (tol : ℚ)
    (b : Block P) (axis : Fin 3) (s : ℚ) (inverse : Bool) (g G : ℚ)
    (htol : 0 < tol) (hbs : 0 ≤ b.get_size dist axis)
    (h : gradeToSizeRun dist tol b axis s inverse g = .success G) :
    0 < s ∧ ∀ (inv2 : Bool) (g2 G2 : ℚ),
      gradeToSizeRun dist tol b axis (-s) inv2 g2 ≠ .success G2 := by
  have hspos : 0 < s := gradeRun_success_pos htol hbs h
  refine ⟨hspos, fun inv2 g2 G2 hneg => ?_⟩
  have := gradeRun_success_pos htol hbs hneg
  linarith

/-- Constant distance function standing in for the external norm utility on
concrete test blocks over the trivial point type. -/
def distConst (c : ℚ) : Unit → Unit → ℚ := fun _ _ => c

/-- A concrete test block: 8 vertices carrying the global mesh indices 0-7,
no curved edges, and every other field at its construction default except
the per-axis cell counts. -/
def testBlock (nc : Fin 3 → Option ℤ) : Block Unit where
  vertices := fun i => { point := (), mesh_index := some ((i : ℕ) : ℤ) }
  edges := []
  n_cells := nc
  grading := fun _ => none
  cell_zone := ""
  description := ""
  patches := []
  mesh_index := none
  deferred_counts := []
  deferred_gradings := []

lemma testBlock_get_size (c : ℚ) (nc : Fin 3 → Option ℤ) (axis : Fin 3) :
    (testBlock nc).get_size (distConst c) axis = c := by
  fin_cases axis <;>
    (simp [Block.get_size, Block.pair_size, Block.find_edge, testBlock, distConst,
      axis_pair_indexes]; ring)

lemma fcell_n1_eval : fcell_size (1 / 1000) 1 6 2 (1 / 3) = .value [6, 2] 0 := by
  norm_num [fcell_size, cascadeLoop]

lemma run_n1_eval :
    gradeToSizeRun (distConst 6) (1 / 1000)
      (testBlock (fun i => if i = 0 then some 1 else none)) 0 2 false (1 / 3) =
      .success 3 := by
  simp only [gradeToSizeRun, testBlock_get_size]
  rw [if_neg (by norm_num)]
  simp only [testBlock]
  norm_num [fcell_n1_eval]

/-- Cell counts resolving axis 0 to a single cell. -/
def ncSmall : Fin 3 → Option ℤ := fun i => if i = 0 then some 1 else none

/-- Cell counts resolving axis 0 to two cells. -/
def ncWitness : Fin 3 → Option ℤ := fun i => if i = 0 then some 2 else none

lemma fcell_n2_eval : fcell_size (1 / 1000) 2 6 1 (1 / 2) = .value [4, 2, 1] 0 := by
  norm_num [fcell_size, cascadeLoop]

lemma run_n2_eval :
    gradeToSizeRun (distConst 6) (1 / 1000) (testBlock ncWitness) 0 1 false (1 / 2) =
      .success 4 := by
  simp only [gradeToSizeRun, testBlock_get_size]
  rw [if_neg (by norm_num)]
  simp only [testBlock, ncWitness]
  norm_num [show Int.toNat 2 = 2 from rfl, fcell_n2_eval]

/-- The block produced by draining the witness grading request. -/
def drainedC1 : Block Unit :=
  { testBlock ncWitness with
      grading := Function.update (testBlock ncWitness).grading 0 (some 4) }

lemma drain_n2_eval :
    (Block.grade_to_size (testBlock ncWitness) 0 1 false).drainGradings
      (distConst 6) (1 / 1000) [1 / 2] = some drainedC1 := by
  have h1 : (Block.grade_to_size (testBlock ncWitness) 0 1 false).drainGradings
      (distConst 6) (1 / 1000) [1 / 2] =
      applyGradings (distConst 6) (1 / 1000) (testBlock ncWitness)
        [((0, 1, false), 1 / 2)] := rfl
  have h2 : (testBlock ncWitness).gradeToSizeDrain (distConst 6) (1 / 1000)
      0 1 false (1 / 2) = some drainedC1 := by
    rw [Block.gradeToSizeDrain, run_n2_eval]
    rfl
  rw [h1]
  simp only [applyGradings, h2]

/-- C1 (witness): the reconstruction theorem applied to a concrete block of
size 6 with 2 cells along axis 0, requested last-cell size 1 and Newton root
1/2: the drain resolves grading 4, and the cascade rebuilt from it
reproduces the requested size. -/
theorem grade_to_size_reconstruction_witness :
    0 < (1 / 1000 : ℚ) ∧ (testBlock ncWitness).n_cells 0 = some 2 ∧
    0 < (2 : ℤ) ∧ (testBlock ncWitness).deferred_gradings = [] ∧
    (Block.grade_to_size (testBlock ncWitness) 0 1 false).drainGradings
      (distConst 6) (1 / 1000) [1 / 2] = some drainedC1 ∧
    ∃ G : ℚ, drainedC1.grading 0 = some G ∧ ∃ r : ℚ, 0 < r ∧
      r ^ (2 : ℤ).toNat * G = 1 ∧
      cascadeLastSize ((testBlock ncWitness).get_size (distConst 6) 0) r
        (2 : ℤ).toNat = 1 :=
  ⟨by norm_num, by simp [testBlock, ncWitness], by norm_num, rfl, drain_n2_eval,
    grade_to_size_reconstruction (distConst 6) (1 / 1000) (testBlock ncWitness)
      drainedC1 0 1 (1 / 2) 2 (by norm_num) (by simp [testBlock, ncWitness])
      (by norm_num) rfl drain_n2_eval⟩

/-- C3 (counterexample): a concrete block of size 6 with `n_cells[0] = 1`,
requested size 2 and Newton root 1/3: the drain succeeds but resolves
`grading[0]` to 3, not to 1 as the claim states. -/
theorem grade_to_size_small_counts_cex :
    ((testBlock ncSmall).gradeToSizeDrain (distConst 6) (1 / 1000) 0 2 false
        (1 / 3)).map (fun bb => bb.grading 0) = some (some 3) ∧
    (3 : ℚ) ≠ 1 := by
  constructor
  · have h2 : (testBlock ncSmall).gradeToSizeDrain (distConst 6) (1 / 1000)
        0 2 false (1 / 3) =
        some { testBlock ncSmall with
                 grading := Function.update (testBlock ncSmall).grading 0 (some 3) } := by
      rw [Block.gradeToSizeDrain]
      rw [show (testBlock ncSmall : Block Unit) =
        testBlock (fun i => if i = 0 then some 1 else none) from rfl]
      rw [run_n1_eval]
    rw [h2]
    simp [Function.update_same]
  · norm_num

/-- C3 (witness for the amended claim): the amended statement applied to the
same concrete block: the `n_cells[0] = 1` branch yields a grading `G` with
`G * s = get_size(0)` (here 3 * 2 = 6). -/
theorem grade_to_size_small_counts_witness :
    0 < (1 / 1000 : ℚ) ∧
    (((testBlock ncSmall).n_cells 0 = some 0 →
      ∀ G : ℚ, gradeToSizeRun (distConst 6) (1 / 1000) (testBlock ncSmall)
        0 2 false (1 / 3) ≠ .success G) ∧
     ((testBlock ncSmall).n_cells 0 = some 1 →
      ∀ G : ℚ, gradeToSizeRun (distConst 6) (1 / 1000) (testBlock ncSmall)
        0 2 false (1 / 3) = .success G →
        (if false then G * (testBlock ncSmall).get_size (distConst 6) 0 = 2
         else G * 2 = (testBlock ncSmall).get_size (distConst 6) 0))) :=
  ⟨by norm_num,
    grade_to_size_small_counts_amended (distConst 6) (1 / 1000) (testBlock ncSmall)
      0 2 false (1 / 3) (by norm_num)⟩

/-- C4 (counterexample): on a concrete block of size 6 with 2 cells along
axis 0, requesting size 1 drains successfully to grading 4, while requesting
size -1 never drains successfully for any Newton root - so the sign of the
requested size does change the outcome. -/
theorem grade_to_size_sign_cex :
    gradeToSizeRun (distConst 6) (1 / 1000) (testBlock ncWitness) 0 1 false (1 / 2) =
      .success 4 ∧
    ∀ g G : ℚ, gradeToSizeRun (distConst 6) (1 / 1000) (testBlock ncWitness)
      0 (-1) false g ≠ .success G := by
  refine ⟨run_n2_eval, fun g G hneg => ?_⟩
  have hpos := gradeRun_success_pos (by norm_num)
    (by rw [testBlock_get_size]; norm_num) hneg
  linarith

/-- C4 (witness for the amended claim): the amended statement applied at the
concrete successful drain of size 1 with root 1/2. -/
theorem grade_to_size_sign_witness :
    0 < (1 / 1000 : ℚ) ∧
    0 ≤ (testBlock ncWitness).get_size (distConst 6) 0 ∧
    gradeToSizeRun (distConst 6) (1 / 1000) (testBlock ncWitness) 0 1 false (1 / 2) =
      .success 4 ∧
    (0 < (1 : ℚ) ∧ ∀ (inv2 : Bool) (g2 G2 : ℚ),
      gradeToSizeRun (distConst 6) (1 / 1000) (testBlock ncWitness)
        0 (-1) inv2 g2 ≠ .success G2) :=
  ⟨by norm_num, by rw [testBlock_get_size]; norm_num, run_n2_eval,
    grade_to_size_sign_amended (distConst 6) (1 / 1000) (testBlock ncWitness)
      0 1 false (1 / 2) 4 (by norm_num) (by rw [testBlock_get_size]; norm_num)
      run_n2_eval⟩

end GradingClaims

section CountClaims

/-- C5: enqueuing `count_to_size(axis, cell_size)` and draining the deferred
queue resolves `n_cells[axis]` to `floor(get_size(axis) / cell_size)` for a
positive cell size (Python `int()` truncates, and the quotient is
nonnegative, so truncation is the floor - never a round-up). -/
theorem count_to_size_floor {P : Type} (dist : P → P → ℚ) (b : Block P)
    (axis : Fin 3) (cell_size : ℚ)
    (hq : b.deferred_counts = []) (hcs : 0 < cell_size)
    (hbs : 0 ≤ b.get_size dist axis) :
    ((b.count_to_size axis cell_size).drainCounts dist).n_cells axis =
      some ⌊b.get_size dist axis / cell_size⌋ := by
  have hqueue : (b.count_to_size axis cell_size).deferred_counts =
      [(axis, cell_size)] := by
    simp [Block.count_to_size, hq]
  rw [Block.drainCounts, hqueue, List.foldl_cons, List.foldl_nil]
  simp only [Block.countToSizeRun, Function.update_same]
  have hb2 : ({ b.count_to_size axis cell_size with deferred_counts := [] } :
      Block P).get_size dist axis = b.get_size dist axis := rfl
  rw [hb2, pyInt, if_pos (div_nonneg hbs (le_of_lt hcs))]

/-- C5 (witness): a block of size 10 with cell size 3 resolves to 3 cells
(floor of 10/3), exercising the truncation. -/
theorem count_to_size_floor_witness :
    (testBlock (fun _ => none)).deferred_counts = [] ∧ 0 < (3 : ℚ) ∧
    0 ≤ (testBlock (fun _ => none)).get_size (distConst 10) 0 ∧
    (((testBlock (fun _ => none)).count_to_size 0 3).drainCounts
        (distConst 10)).n_cells 0 =
      some ⌊(testBlock (fun _ => none)).get_size (distConst 10) 0 / 3⌋ ∧
    ⌊(testBlock (fun _ => none)).get_size (distConst 10) 0 / 3⌋ = 3 :=
  ⟨rfl, by norm_num, by rw [testBlock_get_size]; norm_num,
    count_to_size_floor (distConst 10) (testBlock (fun _ => none)) 0 3 rfl
      (by norm_num) (by rw [testBlock_get_size]; norm_num),
    by rw [testBlock_get_size]; norm_num⟩

end CountClaims

section SerializationClaims

/-- C6 (counterexample): a block whose three cell counts are all unset
serializes without any failure being surfaced - `__repr__` silently emits a
complete record with the literal text `None` in the counts column. -/
theorem serialization_unset_counts_cex :
    Block.repr (testBlock (fun _ => none)) =
      "hex  ( 0 1 2 3 4 5 6 7 )  (None None None)  simpleGrading (1 1 1) // None " := by
  decide

/-- C6 (amended): serializing a block with all counts unset does not fail;
it emits the full record with the counts column rendered literally as
`(None None None)` - counts are never defaulted to a number, while grading
alone defaults (via `gradingStr`, unset entries print as 1). -/
theorem serialization_unset_counts_amended {P : Type} (b : Block P)
    (h : ∀ i : Fin 3, b.n_cells i = none) :
    Block.repr b =
      "hex " ++
      (" ( " ++
        String.intercalate " "
          ((List.finRange 8).map (fun i => pyStrOptInt (b.vertices i).mesh_index)) ++
        " ) ") ++
      b.cell_zone ++
      " (None None None) " ++
      (" simpleGrading (" ++ gradingStr (b.grading 0) ++ " " ++
        gradingStr (b.grading 1) ++ " " ++ gradingStr (b.grading 2) ++ ")") ++
      (" // " ++ pyStrOptInt b.mesh_index ++ " " ++ b.description) := by
  rw [Block.repr, h 0, h 1, h 2]
  rfl

/-- C6 (witness): the amended statement applied to a concrete block with all
three counts unset. -/
theorem serialization_unset_counts_witness :
    (∀ i : Fin 3, (testBlock (fun _ => none)).n_cells i = none) ∧
    Block.repr (testBlock (fun _ => none)) =
      "hex " ++
      (" ( " ++
        String.intercalate " "
          ((List.finRange 8).map
            (fun i => pyStrOptInt ((testBlock (fun _ => none)).vertices i).mesh_index)) ++
        " ) ") ++
      (testBlock (fun _ => none)).cell_zone ++
      " (None None None) " ++
      (" simpleGrading (" ++ gradingStr ((testBlock (fun _ => none)).grading 0) ++ " " ++
        gradingStr ((testBlock (fun _ => none)).grading 1) ++ " " ++
        gradingStr ((testBlock (fun _ => none)).grading 2) ++ ")") ++
      (" // " ++ pyStrOptInt (testBlock (fun _ => none)).mesh_index ++ " " ++
        (testBlock (fun _ => none)).description) :=
  ⟨fun _ => rfl,
    serialization_unset_counts_amended (testBlock (fun _ => none)) (fun _ => rfl)⟩

/-- The serialization example block of the spec (§8): counts (10, 5, 2),
grading set only on axis 1 (to 2.0), mesh index 3, with a cell zone and a
description to make every record column visible. -/
def reprExample : Block Unit :=
  { testBlock (fun i => if i = 0 then some 10 else if i = 1 then some 5 else some 2) with
      cell_zone := "zone"
      description := "d"
      grading := fun i => if i = 1 then some 2 else none
      mesh_index := some 3 }

/-- The same example block with its cell zone and description left at their
empty defaults, exactly as in the spec's §8 example. -/
def reprExample2 : Block Unit :=
  { reprExample with cell_zone := "", description := "" }

/-- C7 (counterexample): the record `__repr__` actually produces differs
byte-for-byte from the §4.7 grammar rendered with single spaces between
tokens (the code emits two spaces after `hex` and two before
`simpleGrading`). -/
theorem serialization_grammar_cex :
    Block.repr reprExample ≠ specRecord reprExample := by
  decide

/-- C7 (amended): serialization is fixed and byte-exact for every block,
but the record is the §4.7 grammar with double spaces after `hex` and
before `simpleGrading` (and a double space before the counts column when
the cell zone is empty, since the zone sits between `" ) "` and `" ("`):
the example block emits counts `(10 5 2)`, grading column `(1 2.0 1)`
(axis-1 grading 2.0, unset axes defaulting to 1) and block index 3 in the
trailing comment. -/
theorem serialization_grammar_amended :
    (∀ (P : Type) (b : Block P), Block.repr b =
      "hex  ( " ++
        String.intercalate " "
          ((List.finRange 8).map (fun i => pyStrOptInt (b.vertices i).mesh_index)) ++
        " ) " ++ b.cell_zone ++ " (" ++ pyStrOptInt (b.n_cells 0) ++ " " ++
        pyStrOptInt (b.n_cells 1) ++ " " ++ pyStrOptInt (b.n_cells 2) ++
        ")  simpleGrading (" ++ gradingStr (b.grading 0) ++ " " ++
        gradingStr (b.grading 1) ++ " " ++ gradingStr (b.grading 2) ++
        ") // " ++ pyStrOptInt b.mesh_index ++ " " ++ b.description) ∧
    Block.repr reprExample =
      "hex  ( 0 1 2 3 4 5 6 7 ) zone (10 5 2)  simpleGrading (1 2.0 1) // 3 d" ∧
    Block.repr reprExample2 =
      "hex  ( 0 1 2 3 4 5 6 7 )  (10 5 2)  simpleGrading (1 2.0 1) // 3 " := by
  refine ⟨fun P b => ?_, by decide, by decide⟩
  rw [Block.repr]
  simp only [String.append_assoc]
  rw [← String.append_assoc "hex " " ( ",
    show ("hex " ++ " ( " : String) = "hex  ( " from rfl,
    ← String.append_assoc ") " " simpleGrading (",
    show (") " ++ " simpleGrading (" : String) = ")  simpleGrading (" from rfl,
    ← String.append_assoc ")" " // ",
    show (")" ++ " // " : String) = ") // " from rfl]

end SerializationClaims

section TopologyClaims

lemma gavp_step_mem {P : Type} (b : Block P) :
    ∀ (l : List (Fin 8 × Fin 8)) (acc : List (Finset (Option ℤ)))
      (p : Finset (Option ℤ)),
      p ∈ l.foldl
        (fun pairs pr =>
          if (b.vertices pr.1).mesh_index = (b.vertices pr.2).mesh_index then pairs
          else pairs ++
            [({(b.vertices pr.1).mesh_index, (b.vertices pr.2).mesh_index} :
              Finset (Option ℤ))]) acc ↔
      p ∈ acc ∨ ∃ pr, pr ∈ l ∧
        (b.vertices pr.1).mesh_index ≠ (b.vertices pr.2).mesh_index ∧
        p = {(b.vertices pr.1).mesh_index, (b.vertices pr.2).mesh_index} := by
  intro l
  induction l with
  | nil => intro acc p; simp
  | cons x t ih =>
    intro acc p
    rw [List.foldl_cons, ih]
    by_cases hx : (b.vertices x.1).mesh_index = (b.vertices x.2).mesh_index
    · rw [if_pos hx]
      constructor
      · rintro (hp | ⟨pr, hpr, hne, hpe⟩)
        · exact Or.inl hp
        · exact Or.inr ⟨pr, List.mem_cons_of_mem x hpr, hne, hpe⟩
      · rintro (hp | ⟨pr, hpr, hne, hpe⟩)
        · exact Or.inl hp
        · rcases List.mem_cons.mp hpr with hpr2 | hpr2
          · subst hpr2; exact absurd hx hne
          · exact Or.inr ⟨pr, hpr2, hne, hpe⟩
    · rw [if_neg hx]
      constructor
      · rintro (hp | ⟨pr, hpr, hne, hpe⟩)
        · rcases List.mem_append.mp hp with hp2 | hp2
          · exact Or.inl hp2
          · exact Or.inr ⟨x, List.mem_cons_self x t, hx, List.mem_singleton.mp hp2⟩
        · exact Or.inr ⟨pr, List.mem_cons_of_mem x hpr, hne, hpe⟩
      · rintro (hp | ⟨pr, hpr, hne, hpe⟩)
        · exact Or.inl (List.mem_append.mpr (Or.inl hp))
        · rcases List.mem_cons.mp hpr with hpr2 | hpr2
          · subst hpr2
            exact Or.inl (List.mem_append.mpr (Or.inr (List.mem_singleton.mpr hpe)))
          · exact Or.inr ⟨pr, hpr2, hne, hpe⟩

lemma gavp_step_len {P : Type} (b : Block P) :
    ∀ (l : List (Fin 8 × Fin 8)) (acc : List (Finset (Option ℤ))),
      (l.foldl
        (fun pairs pr =>
          if (b.vertices pr.1).mesh_index = (b.vertices pr.2).mesh_index then pairs
          else pairs ++
            [({(b.vertices pr.1).mesh_index, (b.vertices pr.2).mesh_index} :
              Finset (Option ℤ))]) acc).length ≤ acc.length + l.length := by
  intro l
  induction l with
  | nil => intro acc; simp
  | cons x t ih =>
    intro acc
    rw [List.foldl_cons]
    refine le_trans (ih _) ?_
    by_cases hx : (b.vertices x.1).mesh_index = (b.vertices x.2).mesh_index
    · rw [if_pos hx]
      simp only [List.length_cons]
      omega
    · rw [if_neg hx]
      simp only [List.length_append, List.length_singleton, List.length_cons,
        List.length_nil]
      omega

lemma axis_pair_indexes_length (axis : Fin 3) :
    (axis_pair_indexes axis).length = 4 := by
  fin_cases axis <;> rfl

/-- C8: with global vertex indices assigned, `get_axis_vertex_pairs(axis)`
returns exactly the unordered global-index pairs of those local pairs along
the axis whose two vertices resolve to distinct global indices - degenerate
pairs are silently dropped, never an error - and the result has at most 4
entries. -/
theorem axis_vertex_pairs_spec {P : Type} (b : Block P) (axis : Fin 3)
    (_h : ∀ i : Fin 8, ((b.vertices i).mesh_index).isSome = true) :
    (∀ p : Finset (Option ℤ), p ∈ b.get_axis_vertex_pairs axis ↔
       ∃ pr, pr ∈ axis_pair_indexes axis ∧
         (b.vertices pr.1).mesh_index ≠ (b.vertices pr.2).mesh_index ∧
         p = {(b.vertices pr.1).mesh_index, (b.vertices pr.2).mesh_index}) ∧
    (b.get_axis_vertex_pairs axis).length ≤ 4 := by
  constructor
  · intro p
    rw [Block.get_axis_vertex_pairs, gavp_step_mem]
    simp
  · have hlen := gavp_step_len b (axis_pair_indexes axis) []
    rw [Block.get_axis_vertex_pairs]
    rw [axis_pair_indexes_length] at hlen
    simpa using hlen

/-- A degenerate test block: vertex 7 shares global index 3 with vertex 3,
collapsing one of the four z-axis pairs. -/
def degBlock : Block Unit :=
  { testBlock (fun _ => none) with
      vertices := fun i =>
        { point := (), mesh_index := some (if (i : ℕ) = 7 then 3 else (i : ℕ)) } }

/-- C8 (witness): the pair characterization applied to the degenerate block
along the z axis, whose collapsed pair (3, 7) is dropped. -/
theorem axis_vertex_pairs_witness :
    (∀ i : Fin 8, ((degBlock.vertices i).mesh_index).isSome = true) ∧
    ((∀ p : Finset (Option ℤ), p ∈ degBlock.get_axis_vertex_pairs 2 ↔
        ∃ pr, pr ∈ axis_pair_indexes 2 ∧
          (degBlock.vertices pr.1).mesh_index ≠ (degBlock.vertices pr.2).mesh_index ∧
          p = {(degBlock.vertices pr.1).mesh_index,
               (degBlock.vertices pr.2).mesh_index}) ∧
      (degBlock.get_axis_vertex_pairs 2).length ≤ 4) :=
  ⟨by decide, axis_vertex_pairs_spec degBlock 2 (by decide)⟩

/-- C10: before the orchestrator's indexing pass (every vertex mesh index
still unassigned) every pair along every axis is treated as degenerate -
`None == None` - so `get_axis_vertex_pairs` is empty for all three axes and
`get_axis_from_pair` is `None` for every queried pair. -/
theorem unassigned_pairs {P : Type} (b : Block P)
    (h : ∀ i : Fin 8, (b.vertices i).mesh_index = none) :
    (∀ axis : Fin 3, b.get_axis_vertex_pairs axis = []) ∧
    (∀ pr : Option ℤ × Option ℤ, b.get_axis_from_pair pr = none) := by
  have h1 : ∀ axis : Fin 3, b.get_axis_vertex_pairs axis = [] := by
    intro axis
    rw [List.eq_nil_iff_forall_not_mem]
    intro p hp
    rw [Block.get_axis_vertex_pairs, gavp_step_mem] at hp
    rcases hp with hp | ⟨pr, _, hne, _⟩
    · simp at hp
    · exact hne (by rw [h pr.1, h pr.2])
  refine ⟨h1, fun pr => ?_⟩
  simp [Block.get_axis_from_pair, h1]

/-- A test block whose 8 vertices all still have an unassigned mesh index. -/
def noIdxBlock : Block Unit :=
  { testBlock (fun _ => none) with
      vertices := fun _ => { point := (), mesh_index := none } }

/-- C10 (witness): the unassigned-index theorem applied to a concrete block
with all 8 vertex indices unassigned. -/
theorem unassigned_pairs_witness :
    (∀ axis : Fin 3, noIdxBlock.get_axis_vertex_pairs axis = []) ∧
    (∀ pr : Option ℤ × Option ℤ, noIdxBlock.get_axis_from_pair pr = none) :=
  unassigned_pairs noIdxBlock (fun _ => rfl)

end TopologyClaims

section PatchClaims

lemma lookup_setPatchEntry (ps : List (String × List String)) (name : String)
    (sides : List String) :
    lookupPatch (setPatchEntry ps name sides) name =
      some ((lookupPatch ps name).getD [] ++ sides) := by
  induction ps with
  | nil => simp [setPatchEntry, lookupPatch]
  | cons e rest ih =>
    cases he : (e.1 == name) with
    | true =>
      rw [setPatchEntry, if_pos he, lookupPatch, List.find?_cons_of_pos _ (by simpa using he),
        lookupPatch, List.find?_cons_of_pos _ (by simpa using he)]
      rfl
    | false =>
      rw [setPatchEntry, if_neg (by simp [he]), lookupPatch,
        List.find?_cons_of_neg _ (by simp [he]), lookupPatch,
        List.find?_cons_of_neg _ (by simp [he])]
      exact ih

/-- C9: `set_patch` appends the given sides to the named patch entry
(creating it on first use), so repeated calls accumulate in call order; in
particular registering `['top', 'bottom']` and then the single side
`'left'` under `'inlet'` makes `get_faces('inlet')` return exactly the 3
formatted faces of top, bottom and left, in that order. -/
theorem set_patch_accumulates {P : Type} (b : Block P)
    (h : lookupPatch b.patches "inlet" = none) :
    (∀ (b2 : Block P) (sides : List String) (name : String),
       lookupPatch ((b2.set_patch sides name).patches) name =
         some ((lookupPatch b2.patches name).getD [] ++ sides)) ∧
    ((b.set_patch ["top", "bottom"] "inlet").set_patch_str "left" "inlet").get_faces
        "inlet" =
      some [faceString b (4, 5, 6, 7), faceString b (0, 1, 2, 3),
        faceString b (4, 0, 3, 7)] := by
  constructor
  · intro b2 sides name
    exact lookup_setPatchEntry b2.patches name sides
  · have h1 : lookupPatch ((b.set_patch ["top", "bottom"] "inlet").patches)
        "inlet" = some ["top", "bottom"] := by
      rw [show (b.set_patch ["top", "bottom"] "inlet").patches =
        setPatchEntry b.patches "inlet" ["top", "bottom"] from rfl]
      rw [lookup_setPatchEntry, h]
      rfl
    have h2 : lookupPatch
        (((b.set_patch ["top", "bottom"] "inlet").set_patch_str "left"
          "inlet").patches) "inlet" = some ["top", "bottom", "left"] := by
      rw [show ((b.set_patch ["top", "bottom"] "inlet").set_patch_str "left"
          "inlet").patches =
        setPatchEntry ((b.set_patch ["top", "bottom"] "inlet").patches) "inlet"
          ["left"] from rfl]
      rw [lookup_setPatchEntry, h1]
      rfl
    rw [Block.get_faces, h2]
    simp only [List.mapM_cons, List.mapM_nil, Block.format_face, face_map]
    rfl

/-- C9 (witness): the accumulation theorem applied to a concrete block with
no patches registered yet. -/
theorem set_patch_accumulates_witness :
    lookupPatch (testBlock (fun _ => none)).patches "inlet" = none ∧
    ((∀ (b2 : Block Unit) (sides : List String) (name : String),
        lookupPatch ((b2.set_patch sides name).patches) name =
          some ((lookupPatch b2.patches name).getD [] ++ sides)) ∧
     (((testBlock (fun _ => none)).set_patch ["top", "bottom"]
          "inlet").set_patch_str "left" "inlet").get_faces "inlet" =
       some [faceString (testBlock (fun _ => none)) (4, 5, 6, 7),
         faceString (testBlock (fun _ => none)) (0, 1, 2, 3),
         faceString (testBlock (fun _ => none)) (4, 0, 3, 7)]) :=
  ⟨rfl, set_patch_accumulates (testBlock (fun _ => none)) rfl⟩

end PatchClaims

end ClassyBlocks
